import Mathlib

/-!
Verification of the Brian's Brain cellular automaton video generator
(`src/main.cpp`) against its natural-language specification.

The development shallowly embeds the core of the program: the `cv::Mat`
grid of `cv::Vec3b` cells, the transition engine `brain`, its Moore
neighbourhood scan, the seeding loop of `main`, the frame-generation
driver loop of `main`, and the argument validation in `parse_opt`.
-/

namespace BriansBrain

/-- Model of OpenCV `cv::Vec3b`: a triple of 8-bit channel values.  The
engine only ever writes the three constants `ON`, `DYING`, `OFF` below,
and `==` on `cv::Vec3b` is componentwise equality. -/
structure Vec3b where
  c0 : Nat
  c1 : Nat
  c2 : Nat
deriving DecidableEq, Repr

/-- Source: `static const cv::Vec3b ON = cv::Vec3b({255, 255, 255});`.
This is the rendering of the ALIVE state (white). -/
def ON : Vec3b := ⟨255, 255, 255⟩

/-- Source: `static const cv::Vec3b DYING = cv::Vec3b({255, 0, 0});`. -/
def DYING : Vec3b := ⟨255, 0, 0⟩

/-- Source: `static const cv::Vec3b OFF = cv::Vec3b({0, 0, 0});`. -/
def OFF : Vec3b := ⟨0, 0, 0⟩

/-- Model of a `cv::Mat` of type `CV_8UC3`: a `rows × cols` matrix of
`Vec3b` cells.  `cellAt` models `m.at<cv::Vec3b>(i, j)`.  It is total on
`Int × Int`; the program only ever reads or writes coordinates inside
`[0, rows) × [0, cols)`, so values of `cellAt` outside that rectangle
model memory the program never touches. -/
structure Mat where
  rows : Nat
  cols : Nat
  cellAt : Int → Int → Vec3b

/-- Writing one cell: `m.at<cv::Vec3b>(i, j) = v`. -/
def Mat.write (g : Mat) (i j : Int) (v : Vec3b) : Mat :=
  { g with cellAt := fun a b => if a = i ∧ b = j then v else g.cellAt a b }

/-- A pending store into a matrix: target coordinates and the value stored. -/
def CellWrite : Type := Int × Int × Vec3b

/-- Apply one pending store. -/
def applyWrite (g : Mat) (w : CellWrite) : Mat :=
  g.write w.1 w.2.1 w.2.2

/-- Apply a sequence of stores in order, as the imperative loops do. -/
def applyWrites (g : Mat) (ws : List CellWrite) : Mat :=
  ws.foldl applyWrite g

/-- The inner column scan of the Moore-neighbourhood loop in `brain`
(rows 198-201 of the source): for `l` in `{-1, 0, 1}`, count cell
`(r, j+l)` when `j+l` is inside `[0, cols)` and the cell holds `ON`. -/
def mooreInner (g : Mat) (r j : Int) : Nat :=
  (([-1, 0, 1] : List Int).map (fun l =>
    if 0 ≤ j + l ∧ j + l < (g.cols : Int) ∧ g.cellAt r (j + l) = ON then 1 else 0)).sum

/-- The full neighbourhood scan of `brain` (rows 196-201 of the source):
for `k` in `{-1, 0, 1}`, when row `i+k` is inside `[0, rows)`, add the
column scan of that row.  Note the scan ranges over all nine offsets
including `(0, 0)`; it is only ever evaluated on cells that are not `ON`,
where the `(0, 0)` term contributes nothing. -/
def mooreScan (g : Mat) (i j : Int) : Nat :=
  (([-1, 0, 1] : List Int).map (fun k =>
    if 0 ≤ i + k ∧ i + k < (g.rows : Int) then mooreInner g (i + k) j else 0)).sum

/-- Modelled from the spec (§4.2): the Moore-neighbour ALIVE count over
the eight offsets with row and column offset in `{-1, 0, +1}` excluding
`(0, 0)`, with out-of-range neighbours excluded rather than wrapped.
This is the specification-side count compared against `mooreScan`. -/
def neighborOffsets : List (Int × Int) :=
  [(-1, -1), (-1, 0), (-1, 1), (0, -1), (0, 1), (1, -1), (1, 0), (1, 1)]

/-- Modelled from the spec (§4.2): number of in-range Moore neighbours
holding `ON`, self excluded. -/
def mooreAlive (g : Mat) (i j : Int) : Nat :=
  (neighborOffsets.map (fun p =>
    if 0 ≤ i + p.1 ∧ i + p.1 < (g.rows : Int) then
      if 0 ≤ j + p.2 ∧ j + p.2 < (g.cols : Int) ∧ g.cellAt (i + p.1) (j + p.2) = ON then 1
      else 0
    else 0)).sum

/-- The per-cell transition rule of `brain` (rows 190-204 of the source):
`ON` cells become `DYING`; `DYING` cells become `OFF`; any other cell
becomes `ON` exactly when the neighbourhood scan counts two `ON` cells,
and `OFF` otherwise. -/
def brainCell (g : Mat) (i j : Int) : Vec3b :=
  if g.cellAt i j = ON then DYING
  else if g.cellAt i j = DYING then OFF
  else if mooreScan g i j = 2 then ON else OFF

/-- The sequence of stores performed by the loops of `brain`: row-major
over `[0, in.rows) × [0, in.cols)`, each store writing the rule's result
for that cell.  Every value is computed from the input matrix alone. -/
def brainWrites (inG : Mat) : List CellWrite :=
  (List.range inG.rows).flatMap (fun i : Nat =>
    (List.range inG.cols).map (fun j : Nat =>
      ((i : Int), (j : Int), brainCell inG i j)))

/-- `static void brain(const cv::Mat &in, cv::Mat &out)`: apply every
store of `brainWrites in` to the output matrix. -/
def brain (inG outG : Mat) : Mat :=
  applyWrites outG (brainWrites inG)

/-- One generation step as performed by the driver loop of `main`
(rows 163-165): after `curr.copyTo(prev)` the two buffers hold the same
cells, and `brain(prev, curr)` overwrites `curr` in place. -/
def step (g : Mat) : Mat := brain g g

/-- The driver loop of `main` (rows 157-166) run for `n` iterations:
returns the final `curr` buffer and the list of frames handed to the
video sink, in order.  Each iteration emits the current frame first and
only then computes the next generation. -/
def mainLoop (g0 : Mat) : Nat → Mat × List Mat
  | 0 => (g0, [])
  | n + 1 =>
    let p := mainLoop g0 n
    (step p.1, p.2 ++ [p.1])

/-- Source: `USHRT_MAX` from `<limits.h>`. -/
def USHRT_MAX : Nat := 65535

/-- The `key == 'c'` branch of `parse_opt` (rows 264-268): values of at
least `USHRT_MAX` fail fatally with "too many columns", anything smaller
is stored as the column count. -/
def parse_opt_columns (value : Nat) : Except String Nat :=
  if value ≥ USHRT_MAX then Except.error "too many columns" else Except.ok value

/-- The `key == 'r'` branch of `parse_opt` (rows 269-274): values of at
least `USHRT_MAX` fail fatally with "too many rows", anything smaller is
stored as the row count. -/
def parse_opt_rows (value : Nat) : Except String Nat :=
  if value ≥ USHRT_MAX then Except.error "too many rows" else Except.ok value

/-- Source row 148: `size = std::min(args.rows, args.columns) * DEFAULT_SEED_AREA`
with `DEFAULT_SEED_AREA` equal to `0.4`, truncated to `int`.  For every
`min rows cols < 65535` the double-precision product truncates to exactly
`floor(min rows cols * 2 / 5)`, which is this value. -/
def seedSize (rows cols : Nat) : Nat := min rows cols * 2 / 5

/-- The stores of one pass of the inner seeding loop (source row 151-152):
columns `cLo, cLo+1, ...` of row `i`, `nC` cells in all, the `t`-th draw
of the random source deciding cell `t`.  `rnd t` models the parity
`std::rand() & 1` of the `t`-th draw. -/
def seedRowWrites (rnd : Nat → Bool) (i : Nat) : Nat → Nat → Nat → List CellWrite
  | _, 0, _ => []
  | cLo, nC + 1, t =>
    ((i : Int), (cLo : Int), if rnd t then ON else OFF) ::
      seedRowWrites rnd i (cLo + 1) nC (t + 1)

/-- The stores of the whole seeding loop (source rows 150-152): rows
`rLo, rLo+1, ...`, `nR` rows in all, each row consuming `nC` draws of the
random source in order. -/
def seedBlockWrites (rnd : Nat → Bool) : Nat → Nat → Nat → Nat → Nat → List CellWrite
  | _, _, 0, _, _ => []
  | rLo, cLo, nR + 1, nC, t =>
    seedRowWrites rnd rLo cLo nC t ++
      seedBlockWrites rnd (rLo + 1) cLo nR nC (t + nC)

/-- The seeding phase of `main` (rows 143-152).  `mem` models the
contents of the freshly constructed `cv::Mat(rows, columns, CV_8UC3)`
buffer, which the constructor leaves unspecified; the loop then stores a
fresh 50/50 draw into every cell of the centred square. -/
def seedGrid (rows cols : Nat) (mem : Int → Int → Vec3b) (rnd : Nat → Bool) : Mat :=
  applyWrites ⟨rows, cols, mem⟩
    (seedBlockWrites rnd ((rows - seedSize rows cols) / 2) ((cols - seedSize rows cols) / 2)
      ((rows + seedSize rows cols) / 2 - (rows - seedSize rows cols) / 2)
      ((cols + seedSize rows cols) / 2 - (cols - seedSize rows cols) / 2) 0)

end BriansBrain


namespace BriansBrain

/-! ### Generic lemmas about sequences of cell stores -/

/-- The target coordinates of a pending store. -/
def wkey (w : CellWrite) : Int × Int := (w.1, w.2.1)

lemma applyWrites_nil (g : Mat) : applyWrites g [] = g := rfl

lemma applyWrites_cons (g : Mat) (w : CellWrite) (ws : List CellWrite) :
    applyWrites g (w :: ws) = applyWrites (applyWrite g w) ws := rfl

lemma applyWrites_append (g : Mat) (ws1 ws2 : List CellWrite) :
    applyWrites g (ws1 ++ ws2) = applyWrites (applyWrites g ws1) ws2 := by
  simp [applyWrites, List.foldl_append]

lemma applyWrite_rows (g : Mat) (w : CellWrite) : (applyWrite g w).rows = g.rows := rfl

lemma applyWrite_cols (g : Mat) (w : CellWrite) : (applyWrite g w).cols = g.cols := rfl

lemma applyWrites_rows (g : Mat) (ws : List CellWrite) :
    (applyWrites g ws).rows = g.rows := by
  induction ws generalizing g with
  | nil => rfl
  | cons w ws ih => rw [applyWrites_cons, ih, applyWrite_rows]

lemma applyWrites_cols (g : Mat) (ws : List CellWrite) :
    (applyWrites g ws).cols = g.cols := by
  induction ws generalizing g with
  | nil => rfl
  | cons w ws ih => rw [applyWrites_cons, ih, applyWrite_cols]

lemma applyWrite_cellAt_ne (g : Mat) (w : CellWrite) (i j : Int)
    (h : ¬(i = w.1 ∧ j = w.2.1)) : (applyWrite g w).cellAt i j = g.cellAt i j :=
  if_neg h

lemma applyWrite_cellAt_eq (g : Mat) (w : CellWrite) :
    (applyWrite g w).cellAt w.1 w.2.1 = w.2.2 :=
  if_pos ⟨rfl, rfl⟩

/-- A sequence of stores that never targets `(i, j)` leaves that cell alone. -/
lemma applyWrites_cellAt_of_forall_ne (ws : List CellWrite) (g : Mat) (i j : Int)
    (h : ∀ w ∈ ws, ¬(i = w.1 ∧ j = w.2.1)) :
    (applyWrites g ws).cellAt i j = g.cellAt i j := by
  induction ws generalizing g with
  | nil => rfl
  | cons w ws ih =>
    rw [applyWrites_cons, ih _ fun w' hw' => h w' (List.mem_cons_of_mem w hw'),
      applyWrite_cellAt_ne _ _ _ _ (h w (List.mem_cons_self _ _))]

/-- When the targets of a store sequence are pairwise distinct, the cell at
`(i, j)` ends up holding the value stored by the unique store targeting it. -/
lemma applyWrites_cellAt_of_mem (ws : List CellWrite) (g : Mat) (i j : Int) (v : Vec3b)
    (hnd : (ws.map wkey).Nodup) (hm : ((i, j, v) : CellWrite) ∈ ws) :
    (applyWrites g ws).cellAt i j = v := by
  induction ws generalizing g with
  | nil => exact absurd hm (List.not_mem_nil _)
  | cons w ws ih =>
    rw [List.map_cons, List.nodup_cons] at hnd
    rcases List.mem_cons.1 hm with hw | hw
    · subst hw
      rw [applyWrites_cons,
        applyWrites_cellAt_of_forall_ne ws (applyWrite g (i, j, v)) i j ?_]
      · exact applyWrite_cellAt_eq g (i, j, v)
      · intro w' hw' hk
        have hkey : wkey w' = wkey ((i, j, v) : CellWrite) := by
          simp only [wkey]
          rw [← hk.1, ← hk.2]
        exact hnd.1 (hkey ▸ List.mem_map.2 ⟨w', hw', rfl⟩)
    · rw [applyWrites_cons]
      exact ih (applyWrite g w) hnd.2 hw

end BriansBrain

namespace BriansBrain

/-! ### The stores performed by `brain` -/

lemma mem_brainWrites (inG : Mat) (w : CellWrite) :
    w ∈ brainWrites inG ↔
      ∃ a b : Nat, a < inG.rows ∧ b < inG.cols ∧
        w = ((a : Int), (b : Int), brainCell inG a b) := by
  constructor
  · intro h
    rcases List.mem_flatMap.1 h with ⟨a, ha, hmem⟩
    rcases List.mem_map.1 hmem with ⟨b, hb, rfl⟩
    exact ⟨a, b, List.mem_range.1 ha, List.mem_range.1 hb, rfl⟩
  · rintro ⟨a, b, ha, hb, rfl⟩
    exact List.mem_flatMap.2
      ⟨a, List.mem_range.2 ha, List.mem_map.2 ⟨b, List.mem_range.2 hb, rfl⟩⟩

lemma brainWrites_keys_nodup (inG : Mat) :
    ((brainWrites inG).map wkey).Nodup := by
  have hmap : (brainWrites inG).map wkey =
      (List.range inG.rows).flatMap (fun a : Nat =>
        (List.range inG.cols).map (fun b : Nat => ((a : Int), (b : Int)))) := by
    simp only [brainWrites, List.map_flatMap, List.map_map]
    rfl
  rw [hmap, List.nodup_flatMap]
  refine ⟨fun a _ => ?_, ?_⟩
  · exact (List.nodup_range _).map (fun x y hxy => by
      have h2 := congrArg Prod.snd hxy
      simp only [] at h2
      omega)
  · apply List.Pairwise.imp ?_ (List.pairwise_lt_range _)
    intro a b hab
    intro p hp hq
    rcases List.mem_map.1 hp with ⟨x, _, rfl⟩
    rcases List.mem_map.1 hq with ⟨y, _, hk⟩
    have h2 : ((b : Int), (y : Int)).1 = (((a : Int), (x : Int)) : Int × Int).1 :=
      congrArg Prod.fst hk
    simp only [] at h2
    omega

/-- Pointwise description of `brain`: inside the input's rectangle the
output cell holds the rule's result; everywhere else the output buffer
keeps its previous contents. -/
lemma brain_cellAt (inG outG : Mat) (i j : Int) :
    (brain inG outG).cellAt i j =
      if 0 ≤ i ∧ i < (inG.rows : Int) ∧ 0 ≤ j ∧ j < (inG.cols : Int) then
        brainCell inG i j
      else outG.cellAt i j := by
  by_cases h : 0 ≤ i ∧ i < (inG.rows : Int) ∧ 0 ≤ j ∧ j < (inG.cols : Int)
  · rw [if_pos h]
    obtain ⟨h1, h2, h3, h4⟩ := h
    have hm : (((i.toNat : Nat) : Int), ((j.toNat : Nat) : Int),
        brainCell inG ((i.toNat : Nat) : Int) ((j.toNat : Nat) : Int)) ∈ brainWrites inG :=
      (mem_brainWrites inG _).2 ⟨i.toNat, j.toNat, by omega, by omega, rfl⟩
    have hia : ((i.toNat : Nat) : Int) = i := by omega
    have hjb : ((j.toNat : Nat) : Int) = j := by omega
    rw [hia, hjb] at hm
    exact applyWrites_cellAt_of_mem _ _ _ _ _ (brainWrites_keys_nodup inG) hm
  · rw [if_neg h]
    refine applyWrites_cellAt_of_forall_ne _ _ _ _ ?_
    intro w hw hk
    rcases (mem_brainWrites inG w).1 hw with ⟨a, b, ha, hb, rfl⟩
    have hk1 : i = (a : Int) := hk.1
    have hk2 : j = (b : Int) := hk.2
    exact h ⟨by omega, by omega, by omega, by omega⟩

lemma brain_rows (inG outG : Mat) : (brain inG outG).rows = outG.rows :=
  applyWrites_rows _ _

lemma brain_cols (inG outG : Mat) : (brain inG outG).cols = outG.cols :=
  applyWrites_cols _ _

end BriansBrain

namespace BriansBrain

/-! ### The neighbourhood scan versus the specification's neighbour count -/

lemma ite_add_ite {c : Prop} [Decidable c] (x y : Nat) :
    (if c then x + y else 0) = (if c then x else 0) + (if c then y else 0) := by
  split <;> simp

/-- On any cell that does not hold `ON` — in particular on every cell where
`brain` evaluates the scan — the nine-offset scan of the source equals the
specification's eight-neighbour count. -/
lemma mooreScan_eq_mooreAlive (g : Mat) (i j : Int) (h : g.cellAt i j ≠ ON) :
    mooreScan g i j = mooreAlive g i j := by
  have hself : (if 0 ≤ j ∧ j < (g.cols : Int) ∧ g.cellAt i j = ON then (1 : Nat) else 0) = 0 := by
    rw [if_neg]
    rintro ⟨-, -, hON⟩
    exact h hON
  simp only [mooreScan, mooreInner, mooreAlive, neighborOffsets, List.map_cons, List.map_nil,
    List.sum_cons, List.sum_nil, add_zero, zero_add]
  rw [hself]
  simp only [ite_add_ite, add_zero, zero_add]
  omega

end BriansBrain

namespace BriansBrain

lemma ite_le {c : Prop} [Decidable c] {x n : Nat} (hx : x ≤ n) : (if c then x else 0) ≤ n := by
  split <;> omega

lemma mooreInner_le_three (g : Mat) (r j : Int) : mooreInner g r j ≤ 3 := by
  simp only [mooreInner, List.map_cons, List.map_nil, List.sum_cons, List.sum_nil, add_zero]
  split_ifs <;> omega

lemma mooreInner_self_zero (g : Mat) (r j : Int) (h : g.cellAt r j ≠ ON) :
    (if 0 ≤ j ∧ j < (g.cols : Int) ∧ g.cellAt r j = ON then (1 : Nat) else 0) = 0 := by
  rw [if_neg]
  rintro ⟨-, -, hON⟩
  exact h hON

/-- The middle row of the scan counts at most two cells: the cell itself,
which is not `ON`, contributes nothing. -/
lemma mooreInner_le_two_self (g : Mat) (r j : Int) (h : g.cellAt r j ≠ ON) :
    mooreInner g r j ≤ 2 := by
  simp only [mooreInner, List.map_cons, List.map_nil, List.sum_cons, List.sum_nil, add_zero,
    zero_add]
  rw [mooreInner_self_zero g r j h]
  split_ifs <;> omega

lemma mooreInner_le_two_left (g : Mat) (r j : Int) (hj : j = 0) : mooreInner g r j ≤ 2 := by
  simp only [mooreInner, List.map_cons, List.map_nil, List.sum_cons, List.sum_nil, add_zero]
  rw [if_neg (by rintro ⟨h1, -⟩; omega :
    ¬(0 ≤ j + -1 ∧ j + -1 < (g.cols : Int) ∧ g.cellAt r (j + -1) = ON))]
  split_ifs <;> omega

lemma mooreInner_le_two_right (g : Mat) (r j : Int) (hj : j = (g.cols : Int) - 1) :
    mooreInner g r j ≤ 2 := by
  simp only [mooreInner, List.map_cons, List.map_nil, List.sum_cons, List.sum_nil, add_zero]
  rw [if_neg (by rintro ⟨-, h2, -⟩; omega :
    ¬(0 ≤ j + 1 ∧ j + 1 < (g.cols : Int) ∧ g.cellAt r (j + 1) = ON))]
  split_ifs <;> omega

lemma mooreInner_le_one_left_self (g : Mat) (r j : Int) (hj : j = 0)
    (h : g.cellAt r j ≠ ON) : mooreInner g r j ≤ 1 := by
  simp only [mooreInner, List.map_cons, List.map_nil, List.sum_cons, List.sum_nil, add_zero,
    zero_add]
  rw [mooreInner_self_zero g r j h]
  rw [if_neg (by rintro ⟨h1, -⟩; omega :
    ¬(0 ≤ j + -1 ∧ j + -1 < (g.cols : Int) ∧ g.cellAt r (j + -1) = ON))]
  split_ifs <;> omega

lemma mooreInner_le_one_right_self (g : Mat) (r j : Int) (hj : j = (g.cols : Int) - 1)
    (h : g.cellAt r j ≠ ON) : mooreInner g r j ≤ 1 := by
  simp only [mooreInner, List.map_cons, List.map_nil, List.sum_cons, List.sum_nil, add_zero,
    zero_add]
  rw [mooreInner_self_zero g r j h]
  rw [if_neg (by rintro ⟨-, h2, -⟩; omega :
    ¬(0 ≤ j + 1 ∧ j + 1 < (g.cols : Int) ∧ g.cellAt r (j + 1) = ON))]
  split_ifs <;> omega

/-- On a non-`ON` cell the scan counts at most the eight true neighbours. -/
lemma mooreScan_le_eight (g : Mat) (i j : Int) (h : g.cellAt i j ≠ ON) :
    mooreScan g i j ≤ 8 := by
  simp only [mooreScan, List.map_cons, List.map_nil, List.sum_cons, List.sum_nil, add_zero]
  have h1 : (if 0 ≤ i + -1 ∧ i + -1 < (g.rows : Int) then mooreInner g (i + -1) j else 0) ≤ 3 :=
    ite_le (mooreInner_le_three g (i + -1) j)
  have h2 : (if 0 ≤ i ∧ i < (g.rows : Int) then mooreInner g i j else 0) ≤ 2 :=
    ite_le (mooreInner_le_two_self g i j h)
  have h3 : (if 0 ≤ i + 1 ∧ i + 1 < (g.rows : Int) then mooreInner g (i + 1) j else 0) ≤ 3 :=
    ite_le (mooreInner_le_three g (i + 1) j)
  omega

end BriansBrain

namespace BriansBrain

/-- A corner cell has at most three candidate neighbours. -/
lemma mooreScan_corner_le_three (g : Mat) (i j : Int) (h : g.cellAt i j ≠ ON)
    (hi : i = 0 ∨ i = (g.rows : Int) - 1) (hj : j = 0 ∨ j = (g.cols : Int) - 1) :
    mooreScan g i j ≤ 3 := by
  simp only [mooreScan, List.map_cons, List.map_nil, List.sum_cons, List.sum_nil, add_zero]
  have hb : (if 0 ≤ i ∧ i < (g.rows : Int) then mooreInner g i j else 0) ≤ 1 := by
    rcases hj with hj | hj
    · exact ite_le (mooreInner_le_one_left_self g i j hj h)
    · exact ite_le (mooreInner_le_one_right_self g i j hj h)
  have hc2 : (if 0 ≤ i + 1 ∧ i + 1 < (g.rows : Int) then mooreInner g (i + 1) j else 0) ≤ 2 := by
    rcases hj with hj | hj
    · exact ite_le (mooreInner_le_two_left g (i + 1) j hj)
    · exact ite_le (mooreInner_le_two_right g (i + 1) j hj)
  have ha2 : (if 0 ≤ i + -1 ∧ i + -1 < (g.rows : Int) then mooreInner g (i + -1) j else 0) ≤ 2 := by
    rcases hj with hj | hj
    · exact ite_le (mooreInner_le_two_left g (i + -1) j hj)
    · exact ite_le (mooreInner_le_two_right g (i + -1) j hj)
  rcases hi with hi | hi
  · have ha : (if 0 ≤ i + -1 ∧ i + -1 < (g.rows : Int) then mooreInner g (i + -1) j else 0) = 0 :=
      if_neg (by omega)
    omega
  · have hc : (if 0 ≤ i + 1 ∧ i + 1 < (g.rows : Int) then mooreInner g (i + 1) j else 0) = 0 :=
      if_neg (by omega)
    omega

/-- A cell on any boundary row or column has at most five candidate
neighbours. -/
lemma mooreScan_boundary_le_five (g : Mat) (i j : Int) (h : g.cellAt i j ≠ ON)
    (hbd : i = 0 ∨ i = (g.rows : Int) - 1 ∨ j = 0 ∨ j = (g.cols : Int) - 1) :
    mooreScan g i j ≤ 5 := by
  simp only [mooreScan, List.map_cons, List.map_nil, List.sum_cons, List.sum_nil, add_zero]
  rcases hbd with hi | hi | hj | hj
  · have ha : (if 0 ≤ i + -1 ∧ i + -1 < (g.rows : Int) then mooreInner g (i + -1) j else 0) = 0 :=
      if_neg (by omega)
    have hb : (if 0 ≤ i ∧ i < (g.rows : Int) then mooreInner g i j else 0) ≤ 2 :=
      ite_le (mooreInner_le_two_self g i j h)
    have hc : (if 0 ≤ i + 1 ∧ i + 1 < (g.rows : Int) then mooreInner g (i + 1) j else 0) ≤ 3 :=
      ite_le (mooreInner_le_three g (i + 1) j)
    omega
  · have hc : (if 0 ≤ i + 1 ∧ i + 1 < (g.rows : Int) then mooreInner g (i + 1) j else 0) = 0 :=
      if_neg (by omega)
    have hb : (if 0 ≤ i ∧ i < (g.rows : Int) then mooreInner g i j else 0) ≤ 2 :=
      ite_le (mooreInner_le_two_self g i j h)
    have ha : (if 0 ≤ i + -1 ∧ i + -1 < (g.rows : Int) then mooreInner g (i + -1) j else 0) ≤ 3 :=
      ite_le (mooreInner_le_three g (i + -1) j)
    omega
  · have ha : (if 0 ≤ i + -1 ∧ i + -1 < (g.rows : Int) then mooreInner g (i + -1) j else 0) ≤ 2 :=
      ite_le (mooreInner_le_two_left g (i + -1) j hj)
    have hb : (if 0 ≤ i ∧ i < (g.rows : Int) then mooreInner g i j else 0) ≤ 1 :=
      ite_le (mooreInner_le_one_left_self g i j hj h)
    have hc : (if 0 ≤ i + 1 ∧ i + 1 < (g.rows : Int) then mooreInner g (i + 1) j else 0) ≤ 2 :=
      ite_le (mooreInner_le_two_left g (i + 1) j hj)
    omega
  · have ha : (if 0 ≤ i + -1 ∧ i + -1 < (g.rows : Int) then mooreInner g (i + -1) j else 0) ≤ 2 :=
      ite_le (mooreInner_le_two_right g (i + -1) j hj)
    have hb : (if 0 ≤ i ∧ i < (g.rows : Int) then mooreInner g i j else 0) ≤ 1 :=
      ite_le (mooreInner_le_one_right_self g i j hj h)
    have hc : (if 0 ≤ i + 1 ∧ i + 1 < (g.rows : Int) then mooreInner g (i + 1) j else 0) ≤ 2 :=
      ite_le (mooreInner_le_two_right g (i + 1) j hj)
    omega

end BriansBrain

namespace BriansBrain

/-- If no in-range cell of the grid holds `ON`, the scan counts zero. -/
lemma mooreInner_eq_zero (g : Mat) (r j : Int)
    (hall : ∀ a b : Int, 0 ≤ a → a < (g.rows : Int) → 0 ≤ b → b < (g.cols : Int) →
      g.cellAt a b ≠ ON)
    (hr : 0 ≤ r ∧ r < (g.rows : Int)) : mooreInner g r j = 0 := by
  have key : ∀ b : Int,
      (if 0 ≤ b ∧ b < (g.cols : Int) ∧ g.cellAt r b = ON then (1 : Nat) else 0) = 0 := by
    intro b
    rw [if_neg]
    rintro ⟨hb1, hb2, hON⟩
    exact hall r b hr.1 hr.2 hb1 hb2 hON
  simp only [mooreInner, List.map_cons, List.map_nil, List.sum_cons, List.sum_nil, key]
  rfl

lemma mooreScan_eq_zero (g : Mat) (i j : Int)
    (hall : ∀ a b : Int, 0 ≤ a → a < (g.rows : Int) → 0 ≤ b → b < (g.cols : Int) →
      g.cellAt a b ≠ ON) : mooreScan g i j = 0 := by
  have key : ∀ r : Int,
      (if 0 ≤ r ∧ r < (g.rows : Int) then mooreInner g r j else 0) = 0 := by
    intro r
    split
    · exact mooreInner_eq_zero g r j hall ‹_›
    · rfl
  simp only [mooreScan, List.map_cons, List.map_nil, List.sum_cons, List.sum_nil, key]
  rfl

/-! ### The scan and the rule read only in-range cells of the input -/

lemma mooreInner_congr (g1 g2 : Mat) (_hrows : g1.rows = g2.rows) (hcols : g1.cols = g2.cols)
    (hcell : ∀ a b : Int, 0 ≤ a → a < (g1.rows : Int) → 0 ≤ b → b < (g1.cols : Int) →
      g1.cellAt a b = g2.cellAt a b)
    (r j : Int) (hr : 0 ≤ r ∧ r < (g1.rows : Int)) :
    mooreInner g1 r j = mooreInner g2 r j := by
  have key : ∀ b : Int,
      (if 0 ≤ b ∧ b < (g1.cols : Int) ∧ g1.cellAt r b = ON then (1 : Nat) else 0) =
        (if 0 ≤ b ∧ b < (g2.cols : Int) ∧ g2.cellAt r b = ON then (1 : Nat) else 0) := by
    intro b
    by_cases hb : 0 ≤ b ∧ b < (g1.cols : Int)
    · rw [hcell r b hr.1 hr.2 hb.1 hb.2, hcols]
    · rw [if_neg, if_neg]
      · rintro ⟨h1, h2, -⟩
        exact hb ⟨h1, by omega⟩
      · rintro ⟨h1, h2, -⟩
        exact hb ⟨h1, h2⟩
  simp only [mooreInner, List.map_cons, List.map_nil, List.sum_cons, List.sum_nil, key]

lemma mooreScan_congr (g1 g2 : Mat) (hrows : g1.rows = g2.rows) (hcols : g1.cols = g2.cols)
    (hcell : ∀ a b : Int, 0 ≤ a → a < (g1.rows : Int) → 0 ≤ b → b < (g1.cols : Int) →
      g1.cellAt a b = g2.cellAt a b)
    (i j : Int) : mooreScan g1 i j = mooreScan g2 i j := by
  have key : ∀ r : Int,
      (if 0 ≤ r ∧ r < (g1.rows : Int) then mooreInner g1 r j else 0) =
        (if 0 ≤ r ∧ r < (g2.rows : Int) then mooreInner g2 r j else 0) := by
    intro r
    by_cases hr : 0 ≤ r ∧ r < (g1.rows : Int)
    · rw [if_pos hr, if_pos (by omega : 0 ≤ r ∧ r < (g2.rows : Int)),
        mooreInner_congr g1 g2 hrows hcols hcell r j hr]
    · rw [if_neg hr, if_neg (by omega : ¬(0 ≤ r ∧ r < (g2.rows : Int)))]
  simp only [mooreScan, List.map_cons, List.map_nil, List.sum_cons, List.sum_nil, key]

/-- The rule's result for an in-range cell depends only on the in-range
cells of the input grid. -/
lemma brainCell_congr (g1 g2 : Mat) (hrows : g1.rows = g2.rows) (hcols : g1.cols = g2.cols)
    (hcell : ∀ a b : Int, 0 ≤ a → a < (g1.rows : Int) → 0 ≤ b → b < (g1.cols : Int) →
      g1.cellAt a b = g2.cellAt a b)
    (i j : Int) (h1 : 0 ≤ i) (h2 : i < (g1.rows : Int)) (h3 : 0 ≤ j)
    (h4 : j < (g1.cols : Int)) : brainCell g1 i j = brainCell g2 i j := by
  rw [brainCell, brainCell, hcell i j h1 h2 h3 h4,
    mooreScan_congr g1 g2 hrows hcols hcell i j]

end BriansBrain

namespace BriansBrain

/-! ### Claim theorems -/

/-- A constant grid: every cell, in range or not, holds `v`. -/
def constMat (r c : Nat) (v : Vec3b) : Mat := ⟨r, c, fun _ _ => v⟩

/-- C1: for every in-range cell, the transition engine maps `ALIVE` (`ON`)
to `DYING` and `DYING` to `OFF` unconditionally, and maps `OFF` to `ON`
exactly when the boundary-clipped Moore-neighbour `ON` count of the input
grid is two, and to `OFF` otherwise. -/
theorem brain_transition_rule (inG outG : Mat) (i j : Int)
    (h1 : 0 ≤ i) (h2 : i < (inG.rows : Int)) (h3 : 0 ≤ j) (h4 : j < (inG.cols : Int)) :
    (inG.cellAt i j = ON → (brain inG outG).cellAt i j = DYING) ∧
    (inG.cellAt i j = DYING → (brain inG outG).cellAt i j = OFF) ∧
    (inG.cellAt i j = OFF →
      (brain inG outG).cellAt i j = if mooreAlive inG i j = 2 then ON else OFF) := by
  rw [brain_cellAt, if_pos ⟨h1, h2, h3, h4⟩]
  refine ⟨fun hc => ?_, fun hc => ?_, fun hc => ?_⟩
  · rw [brainCell, if_pos hc]
  · rw [brainCell, hc, if_neg (by decide : ¬(DYING = ON)), if_pos rfl]
  · rw [brainCell, hc, if_neg (by decide : ¬(OFF = ON)), if_neg (by decide : ¬(OFF = DYING)),
      ← mooreScan_eq_mooreAlive inG i j (by rw [hc]; decide)]

/-- Witness for C1 on a concrete grid: the single `OFF` cell of a 1 × 1
grid stays `OFF` (its neighbour count is zero). -/
theorem brain_transition_rule_witness :
    ((constMat 1 1 OFF).cellAt 0 0 = ON →
      (brain (constMat 1 1 OFF) (constMat 1 1 OFF)).cellAt 0 0 = DYING) ∧
    ((constMat 1 1 OFF).cellAt 0 0 = DYING →
      (brain (constMat 1 1 OFF) (constMat 1 1 OFF)).cellAt 0 0 = OFF) ∧
    ((constMat 1 1 OFF).cellAt 0 0 = OFF →
      (brain (constMat 1 1 OFF) (constMat 1 1 OFF)).cellAt 0 0 =
        if mooreAlive (constMat 1 1 OFF) 0 0 = 2 then ON else OFF) :=
  brain_transition_rule (constMat 1 1 OFF) (constMat 1 1 OFF) 0 0
    (by decide) (by decide) (by decide) (by decide)

/-- C2: on every in-range cell where the engine consults it (the rule's
final branch, where the cell is neither `ON` nor `DYING`), the scan of
`brain` equals the number of `ON` cells among the up-to-eight Moore
neighbours, out-of-range neighbours excluded rather than wrapped; the
count is at most 8, at most 3 on a corner cell and at most 5 on an edge
(non-corner) cell. -/
theorem mooreScan_neighbor_spec (g : Mat) (i j : Int)
    (_h1 : 0 ≤ i) (_h2 : i < (g.rows : Int)) (_h3 : 0 ≤ j) (_h4 : j < (g.cols : Int))
    (hoff : g.cellAt i j ≠ ON ∧ g.cellAt i j ≠ DYING) :
    mooreScan g i j = mooreAlive g i j ∧
    mooreScan g i j ≤ 8 ∧
    ((i = 0 ∨ i = (g.rows : Int) - 1) ∧ (j = 0 ∨ j = (g.cols : Int) - 1) →
      mooreScan g i j ≤ 3) ∧
    ((i = 0 ∨ i = (g.rows : Int) - 1 ∨ j = 0 ∨ j = (g.cols : Int) - 1) ∧
        ¬((i = 0 ∨ i = (g.rows : Int) - 1) ∧ (j = 0 ∨ j = (g.cols : Int) - 1)) →
      mooreScan g i j ≤ 5) :=
  ⟨mooreScan_eq_mooreAlive g i j hoff.1,
   mooreScan_le_eight g i j hoff.1,
   fun hcor => mooreScan_corner_le_three g i j hoff.1 hcor.1 hcor.2,
   fun hedge => mooreScan_boundary_le_five g i j hoff.1 hedge.1⟩

/-- Witness for C2 at the corner cell of a concrete 2 × 2 all-`OFF` grid. -/
theorem mooreScan_neighbor_spec_witness :
    mooreScan (constMat 2 2 OFF) 0 0 = mooreAlive (constMat 2 2 OFF) 0 0 ∧
    mooreScan (constMat 2 2 OFF) 0 0 ≤ 8 ∧
    ((0 = (0 : Int) ∨ (0 : Int) = ((constMat 2 2 OFF).rows : Int) - 1) ∧
        ((0 : Int) = 0 ∨ (0 : Int) = ((constMat 2 2 OFF).cols : Int) - 1) →
      mooreScan (constMat 2 2 OFF) 0 0 ≤ 3) ∧
    (((0 : Int) = 0 ∨ (0 : Int) = ((constMat 2 2 OFF).rows : Int) - 1 ∨ (0 : Int) = 0 ∨
        (0 : Int) = ((constMat 2 2 OFF).cols : Int) - 1) ∧
        ¬(((0 : Int) = 0 ∨ (0 : Int) = ((constMat 2 2 OFF).rows : Int) - 1) ∧
          ((0 : Int) = 0 ∨ (0 : Int) = ((constMat 2 2 OFF).cols : Int) - 1)) →
      mooreScan (constMat 2 2 OFF) 0 0 ≤ 5) :=
  mooreScan_neighbor_spec (constMat 2 2 OFF) 0 0 (by decide) (by decide) (by decide) (by decide)
    (by decide)

/-- C6: the all-`OFF` grid is a fixed point of the transition: dimensions
are preserved and every cell of the result, in range or not, is `OFF`. -/
theorem step_allOff_fixed_point (r c : Nat) (i j : Int) :
    (step (constMat r c OFF)).rows = r ∧ (step (constMat r c OFF)).cols = c ∧
    (step (constMat r c OFF)).cellAt i j = (constMat r c OFF).cellAt i j := by
  refine ⟨brain_rows _ _, brain_cols _ _, ?_⟩
  rw [step, brain_cellAt]
  split
  · rw [brainCell, show (constMat r c OFF).cellAt i j = OFF from rfl,
      if_neg (by decide : ¬(OFF = ON)), if_neg (by decide : ¬(OFF = DYING)),
      mooreScan_eq_zero _ i j (fun a b _ _ _ _ => (by decide : ¬(OFF = ON))),
      if_neg (by decide : ¬((0 : Nat) = 2))]
  · rfl

/-- C8: `parse_opt` accepts a parsed columns or rows value exactly when it
is strictly below 65535 and otherwise fails fatally with the matching
message; 65535 is rejected and 65534 accepted. -/
theorem parse_opt_dimension_validation (v : Nat) :
    (parse_opt_columns v = Except.ok v ↔ v < 65535) ∧
    (parse_opt_columns v = Except.error "too many columns" ↔ 65535 ≤ v) ∧
    (parse_opt_rows v = Except.ok v ↔ v < 65535) ∧
    (parse_opt_rows v = Except.error "too many rows" ↔ 65535 ≤ v) ∧
    parse_opt_columns 65535 = Except.error "too many columns" ∧
    parse_opt_rows 65535 = Except.error "too many rows" ∧
    parse_opt_columns 65534 = Except.ok 65534 ∧
    parse_opt_rows 65534 = Except.ok 65534 := by
  refine ⟨?_, ?_, ?_, ?_, rfl, rfl, rfl, rfl⟩ <;>
    · simp only [parse_opt_columns, parse_opt_rows, USHRT_MAX]
      split_ifs with h <;> simp <;> omega

/-- C10: every in-range cell the engine produces holds one of the three
valid states, whatever the input holds; a cell holding any value other
than `ON` and `DYING` goes through the rule's `OFF` branch. -/
theorem brain_valid_states (inG outG : Mat) (i j : Int)
    (h1 : 0 ≤ i) (h2 : i < (inG.rows : Int)) (h3 : 0 ≤ j) (h4 : j < (inG.cols : Int)) :
    ((brain inG outG).cellAt i j = ON ∨ (brain inG outG).cellAt i j = DYING ∨
      (brain inG outG).cellAt i j = OFF) ∧
    (inG.cellAt i j ≠ ON → inG.cellAt i j ≠ DYING →
      (brain inG outG).cellAt i j = if mooreScan inG i j = 2 then ON else OFF) := by
  rw [brain_cellAt, if_pos ⟨h1, h2, h3, h4⟩]
  constructor
  · rw [brainCell]
    split_ifs <;> decide
  · intro hON hDY
    rw [brainCell, if_neg hON, if_neg hDY]

/-- Witness for C10 on a grid holding an invalid cell value: the output
cell is still one of the three valid states. -/
theorem brain_valid_states_witness :
    ((brain (constMat 1 1 ⟨7, 7, 7⟩) (constMat 1 1 ⟨7, 7, 7⟩)).cellAt 0 0 = ON ∨
      (brain (constMat 1 1 ⟨7, 7, 7⟩) (constMat 1 1 ⟨7, 7, 7⟩)).cellAt 0 0 = DYING ∨
      (brain (constMat 1 1 ⟨7, 7, 7⟩) (constMat 1 1 ⟨7, 7, 7⟩)).cellAt 0 0 = OFF) ∧
    ((constMat 1 1 ⟨7, 7, 7⟩).cellAt 0 0 ≠ ON → (constMat 1 1 ⟨7, 7, 7⟩).cellAt 0 0 ≠ DYING →
      (brain (constMat 1 1 ⟨7, 7, 7⟩) (constMat 1 1 ⟨7, 7, 7⟩)).cellAt 0 0 =
        if mooreScan (constMat 1 1 ⟨7, 7, 7⟩) 0 0 = 2 then ON else OFF) :=
  brain_valid_states (constMat 1 1 ⟨7, 7, 7⟩) (constMat 1 1 ⟨7, 7, 7⟩) 0 0
    (by decide) (by decide) (by decide) (by decide)

end BriansBrain

namespace BriansBrain

/-- C5: the transition engine is pure and deterministic.  Its result at
every in-range cell depends only on the in-range cells of the input grid
— not on the previous contents of the output buffer and not on any state
of an earlier call — and applying the per-cell stores in any order (any
permutation of the loop's store sequence) produces the same cell values. -/
theorem brain_pure_deterministic (in1 in2 out1 out2 : Mat)
    (hrows : in1.rows = in2.rows) (hcols : in1.cols = in2.cols)
    (hcell : ∀ a b : Int, 0 ≤ a → a < (in1.rows : Int) → 0 ≤ b → b < (in1.cols : Int) →
      in1.cellAt a b = in2.cellAt a b)
    (W : List CellWrite) (hW : W.Perm (brainWrites in1)) (i j : Int)
    (h1 : 0 ≤ i) (h2 : i < (in1.rows : Int)) (h3 : 0 ≤ j) (h4 : j < (in1.cols : Int)) :
    (brain in1 out1).cellAt i j = (brain in2 out2).cellAt i j ∧
    (applyWrites out1 W).cellAt i j = (brain in1 out1).cellAt i j := by
  constructor
  · rw [brain_cellAt, brain_cellAt, if_pos ⟨h1, h2, h3, h4⟩,
      if_pos (by omega : 0 ≤ i ∧ i < (in2.rows : Int) ∧ 0 ≤ j ∧ j < (in2.cols : Int))]
    exact brainCell_congr in1 in2 hrows hcols hcell i j h1 h2 h3 h4
  · have hmB : (((i.toNat : Nat) : Int), ((j.toNat : Nat) : Int),
        brainCell in1 ((i.toNat : Nat) : Int) ((j.toNat : Nat) : Int)) ∈ brainWrites in1 :=
      (mem_brainWrites in1 _).2 ⟨i.toNat, j.toNat, by omega, by omega, rfl⟩
    have hia : ((i.toNat : Nat) : Int) = i := by omega
    have hjb : ((j.toNat : Nat) : Int) = j := by omega
    rw [hia, hjb] at hmB
    have hndW : (W.map wkey).Nodup :=
      ((hW.map wkey).nodup_iff).2 (brainWrites_keys_nodup in1)
    rw [applyWrites_cellAt_of_mem W out1 i j _ hndW (hW.mem_iff.2 hmB),
      brain_cellAt, if_pos ⟨h1, h2, h3, h4⟩]

/-- Witness for C5: a 1 × 1 `OFF` input against two different output
buffers, with the store list taken as the loop's own order. -/
theorem brain_pure_deterministic_witness :
    (brain (constMat 1 1 OFF) (constMat 1 1 ON)).cellAt 0 0 =
      (brain (constMat 1 1 OFF) (constMat 1 1 OFF)).cellAt 0 0 ∧
    (applyWrites (constMat 1 1 ON) (brainWrites (constMat 1 1 OFF))).cellAt 0 0 =
      (brain (constMat 1 1 OFF) (constMat 1 1 ON)).cellAt 0 0 :=
  brain_pure_deterministic (constMat 1 1 OFF) (constMat 1 1 OFF) (constMat 1 1 ON)
    (constMat 1 1 OFF) rfl rfl (fun _ _ _ _ _ _ => rfl) (brainWrites (constMat 1 1 OFF))
    (List.Perm.refl _) 0 0 (by decide) (by decide) (by decide) (by decide)

/-- The two generation buffers of `main`. -/
structure Bufs where
  prev : Mat
  curr : Mat

/-- Which of the two buffers a store targets. -/
inductive BufSel where
  | toPrev
  | toCurr

/-- Apply one store to the buffer it targets. -/
def applyTagged (s : Bufs) (w : BufSel × CellWrite) : Bufs :=
  match w.1 with
  | BufSel.toPrev => ⟨applyWrite s.prev w.2, s.curr⟩
  | BufSel.toCurr => ⟨s.prev, applyWrite s.curr w.2⟩

/-- The stores performed by `brain(prev, curr)`: every store of the loop
targets the output buffer `curr`; the input buffer `prev` is only read. -/
def brainOps (inG : Mat) : List (BufSel × CellWrite) :=
  (brainWrites inG).map (fun w => (BufSel.toCurr, w))

/-- One call `brain(prev, curr)` acting on the pair of buffers. -/
def brainExec (s : Bufs) : Bufs :=
  (brainOps s.prev).foldl applyTagged s

lemma foldl_tagged_curr (ws : List CellWrite) (s : Bufs) :
    (ws.map (fun w => (BufSel.toCurr, w))).foldl applyTagged s =
      ⟨s.prev, applyWrites s.curr ws⟩ := by
  induction ws generalizing s with
  | nil => rfl
  | cons w ws ih =>
    rw [List.map_cons, List.foldl_cons, ih]
    rfl

/-- C9: a call of the transition engine leaves every cell of its input
buffer untouched — only the output buffer is written, and it ends up
holding exactly `brain` of the input. -/
theorem brainExec_preserves_input (s : Bufs) (i j : Int) :
    (brainExec s).prev = s.prev ∧
    (brainExec s).prev.cellAt i j = s.prev.cellAt i j ∧
    (brainExec s).curr = brain s.prev s.curr := by
  rw [brainExec, brainOps, foldl_tagged_curr]
  exact ⟨rfl, rfl, rfl⟩

/-- C4: the driver loop emits exactly `n` frames, the `k`-th emitted frame
being generation `k`; the buffer after the loop holds generation `n`,
which is computed by the final iteration's transition but never emitted;
`n = 0` emits nothing. -/
theorem mainLoop_frame_emission (g0 : Mat) (n : Nat) :
    (mainLoop g0 n).2.length = n ∧
    (mainLoop g0 n).2 = (List.range n).map (fun k => step^[k] g0) ∧
    (mainLoop g0 n).1 = step^[n] g0 ∧
    (mainLoop g0 0).2 = [] := by
  have key : ∀ m, (mainLoop g0 m).2 = (List.range m).map (fun k => step^[k] g0) ∧
      (mainLoop g0 m).1 = step^[m] g0 := by
    intro m
    induction m with
    | zero => exact ⟨rfl, rfl⟩
    | succ m ih =>
      constructor
      · show (mainLoop g0 m).2 ++ [(mainLoop g0 m).1] = _
        rw [ih.1, ih.2, List.range_succ, List.map_append, List.map_cons, List.map_nil]
      · show step (mainLoop g0 m).1 = _
        rw [ih.2]
        exact (Function.iterate_succ_apply' step m g0).symm
  refine ⟨?_, (key n).1, (key n).2, rfl⟩
  rw [(key n).1, List.length_map, List.length_range]

end BriansBrain

namespace BriansBrain

lemma step_rows (g : Mat) : (step g).rows = g.rows := brain_rows g g

lemma step_cols (g : Mat) : (step g).cols = g.cols := brain_cols g g

lemma iterate_step_rows (g : Mat) (m : Nat) : (step^[m] g).rows = g.rows := by
  induction m with
  | zero => rfl
  | succ m ih => rw [Function.iterate_succ_apply', step_rows, ih]

lemma iterate_step_cols (g : Mat) (m : Nat) : (step^[m] g).cols = g.cols := by
  induction m with
  | zero => rfl
  | succ m ih => rw [Function.iterate_succ_apply', step_cols, ih]

/-- Every in-range cell of the grid is `OFF`. -/
def OffInb (g : Mat) : Prop :=
  ∀ a b : Int, 0 ≤ a → a < (g.rows : Int) → 0 ≤ b → b < (g.cols : Int) → g.cellAt a b = OFF

lemma OffInb_step {g : Mat} (hg : OffInb g) : OffInb (step g) := by
  intro a b ha1 ha2 hb1 hb2
  rw [step_rows] at ha2
  rw [step_cols] at hb2
  rw [step, brain_cellAt, if_pos ⟨ha1, ha2, hb1, hb2⟩, brainCell,
    hg a b ha1 ha2 hb1 hb2, if_neg (by decide : ¬(OFF = ON)),
    if_neg (by decide : ¬(OFF = DYING)),
    mooreScan_eq_zero g a b (fun x y hx1 hx2 hy1 hy2 => by
      rw [hg x y hx1 hx2 hy1 hy2]; decide),
    if_neg (by decide : ¬((0 : Nat) = 2))]

lemma OffInb_iterate {g : Mat} (hg : OffInb g) (m : Nat) : OffInb (step^[m] g) := by
  induction m with
  | zero => exact hg
  | succ m ih =>
    rw [Function.iterate_succ_apply']
    exact OffInb_step ih

/-- C7: an all-`ALIVE` grid of any size transitions to all-`DYING`, then
to all-`OFF`, and every later generation (`k ≥ 2` applications) is still
all-`OFF`: decay, then fixed point. -/
theorem step_allOn_decay (r c : Nat) (i j : Int)
    (h1 : 0 ≤ i) (h2 : i < (r : Int)) (h3 : 0 ≤ j) (h4 : j < (c : Int))
    (k : Nat) (hk : 2 ≤ k) :
    (step (constMat r c ON)).cellAt i j = DYING ∧
    (step (step (constMat r c ON))).cellAt i j = OFF ∧
    (step^[k] (constMat r c ON)).cellAt i j = OFF := by
  have key1 : ∀ a b : Int, 0 ≤ a → a < (r : Int) → 0 ≤ b → b < (c : Int) →
      (step (constMat r c ON)).cellAt a b = DYING := by
    intro a b ha1 ha2 hb1 hb2
    rw [step, brain_cellAt, if_pos ⟨ha1, ha2, hb1, hb2⟩, brainCell,
      if_pos (show (constMat r c ON).cellAt a b = ON from rfl)]
  have key2 : ∀ a b : Int, 0 ≤ a → a < (r : Int) → 0 ≤ b → b < (c : Int) →
      (step (step (constMat r c ON))).cellAt a b = OFF := by
    intro a b ha1 ha2 hb1 hb2
    have hb : 0 ≤ a ∧ a < ((step (constMat r c ON)).rows : Int) ∧ 0 ≤ b ∧
        b < ((step (constMat r c ON)).cols : Int) := by
      rw [step_rows, step_cols]
      exact ⟨ha1, ha2, hb1, hb2⟩
    rw [step, brain_cellAt, if_pos hb, brainCell, key1 a b ha1 ha2 hb1 hb2,
      if_neg (by decide : ¬(DYING = ON)), if_pos rfl]
  have keyOff : OffInb (step (step (constMat r c ON))) := by
    intro a b ha1 ha2 hb1 hb2
    rw [step_rows, step_rows] at ha2
    rw [step_cols, step_cols] at hb2
    exact key2 a b ha1 ha2 hb1 hb2
  refine ⟨key1 i j h1 h2 h3 h4, key2 i j h1 h2 h3 h4, ?_⟩
  obtain ⟨m, rfl⟩ : ∃ m, k = m + 2 := ⟨k - 2, by omega⟩
  rw [Function.iterate_add_apply]
  have h2' : step^[2] (constMat r c ON) = step (step (constMat r c ON)) := by
    rw [Function.iterate_succ_apply', Function.iterate_succ_apply',
      Function.iterate_zero_apply]
  rw [h2']
  refine OffInb_iterate keyOff m i j h1 ?_ h3 ?_
  · rw [iterate_step_rows, step_rows, step_rows]
    exact h2
  · rw [iterate_step_cols, step_cols, step_cols]
    exact h4

/-- Witness for C7 on a concrete 1 × 1 grid with `k = 2`. -/
theorem step_allOn_decay_witness :
    (step (constMat 1 1 ON)).cellAt 0 0 = DYING ∧
    (step (step (constMat 1 1 ON))).cellAt 0 0 = OFF ∧
    (step^[2] (constMat 1 1 ON)).cellAt 0 0 = OFF :=
  step_allOn_decay 1 1 0 0 (by decide) (by decide) (by decide) (by decide) 2 (by decide)

end BriansBrain

namespace BriansBrain

/-! ### The seeding loop -/

lemma seedRowWrites_targets (rnd : Nat → Bool) (i : Nat) :
    ∀ (cLo nC t : Nat), ∀ w ∈ seedRowWrites rnd i cLo nC t,
      w.1 = (i : Int) ∧ (cLo : Int) ≤ w.2.1 ∧ w.2.1 < (cLo : Int) + (nC : Int) := by
  intro cLo nC
  induction nC generalizing cLo with
  | zero => intro t w hw; exact absurd hw (List.not_mem_nil _)
  | succ n ih =>
    intro t w hw
    rw [seedRowWrites] at hw
    rcases List.mem_cons.1 hw with rfl | hw
    · refine ⟨rfl, ?_, ?_⟩
      · show (cLo : Int) ≤ ((cLo : Nat) : Int)
        omega
      · show ((cLo : Nat) : Int) < (cLo : Int) + ((n + 1 : Nat) : Int)
        omega
    · obtain ⟨ha, hb, hc⟩ := ih (cLo + 1) (t + 1) w hw
      exact ⟨ha, by omega, by omega⟩

lemma seedBlockWrites_targets (rnd : Nat → Bool) :
    ∀ (rLo cLo nR nC t : Nat), ∀ w ∈ seedBlockWrites rnd rLo cLo nR nC t,
      (rLo : Int) ≤ w.1 ∧ w.1 < (rLo : Int) + (nR : Int) ∧
      (cLo : Int) ≤ w.2.1 ∧ w.2.1 < (cLo : Int) + (nC : Int) := by
  intro rLo cLo nR
  induction nR generalizing rLo with
  | zero => intro nC t w hw; exact absurd hw (List.not_mem_nil _)
  | succ n ih =>
    intro nC t w hw
    rw [seedBlockWrites] at hw
    rcases List.mem_append.1 hw with hw | hw
    · obtain ⟨ha, hb, hc⟩ := seedRowWrites_targets rnd rLo cLo nC t w hw
      exact ⟨by omega, by omega, hb, hc⟩
    · obtain ⟨ha, hb, hc, hd⟩ := ih (rLo + 1) nC (t + nC) w hw
      exact ⟨by omega, by omega, hc, hd⟩

/-- Cells outside the seeded block keep the buffer's prior contents. -/
lemma seedBlock_cellAt_outside (rnd : Nat → Bool) (rLo cLo nR nC t : Nat) (g : Mat)
    (a b : Int)
    (h : ¬((rLo : Int) ≤ a ∧ a < (rLo : Int) + (nR : Int) ∧
      (cLo : Int) ≤ b ∧ b < (cLo : Int) + (nC : Int))) :
    (applyWrites g (seedBlockWrites rnd rLo cLo nR nC t)).cellAt a b = g.cellAt a b := by
  apply applyWrites_cellAt_of_forall_ne
  intro w hw hk
  obtain ⟨h1, h2, h3, h4⟩ := seedBlockWrites_targets rnd rLo cLo nR nC t w hw
  obtain ⟨hk1, hk2⟩ := hk
  exact h ⟨by omega, by omega, by omega, by omega⟩

/-- Cells of one seeded row receive the successive draws of the source. -/
lemma seedRow_cellAt_in (rnd : Nat → Bool) (i : Nat) :
    ∀ (cLo nC t : Nat) (g : Mat) (q : Nat), cLo ≤ q → q < cLo + nC →
      (applyWrites g (seedRowWrites rnd i cLo nC t)).cellAt (i : Int) (q : Int) =
        if rnd (t + (q - cLo)) then ON else OFF := by
  intro cLo nC
  induction nC generalizing cLo with
  | zero => intro t g q hq1 hq2; omega
  | succ n ih =>
    intro t g q hq1 hq2
    rw [seedRowWrites, applyWrites_cons]
    by_cases hq : q = cLo
    · subst hq
      rw [applyWrites_cellAt_of_forall_ne _ _ _ _ ?_]
      · have harg : q + 0 - q = 0 := by omega
        have ht : t + (q - q) = t := by omega
        rw [ht]
        exact applyWrite_cellAt_eq g ((i : Int), (q : Int), if rnd t then ON else OFF)
      · intro w hw hk
        obtain ⟨h1, h2, h3⟩ := seedRowWrites_targets rnd i (q + 1) n (t + 1) w hw
        obtain ⟨hk1, hk2⟩ := hk
        omega
    · have harg : (t + 1) + (q - (cLo + 1)) = t + (q - cLo) := by omega
      rw [ih (cLo + 1) (t + 1) _ q (by omega) (by omega), harg]

/-- Cells of the seeded block receive the draws in row-major order. -/
lemma seedBlock_cellAt_in (rnd : Nat → Bool) :
    ∀ (rLo cLo nR nC t : Nat) (g : Mat) (p q : Nat),
      rLo ≤ p → p < rLo + nR → cLo ≤ q → q < cLo + nC →
      (applyWrites g (seedBlockWrites rnd rLo cLo nR nC t)).cellAt (p : Int) (q : Int) =
        if rnd (t + (p - rLo) * nC + (q - cLo)) then ON else OFF := by
  intro rLo cLo nR
  induction nR generalizing rLo with
  | zero => intro nC t g p q hp1 hp2 hq1 hq2; omega
  | succ n ih =>
    intro nC t g p q hp1 hp2 hq1 hq2
    rw [seedBlockWrites, applyWrites_append]
    by_cases hp : p = rLo
    · subst hp
      rw [seedBlock_cellAt_outside rnd (p + 1) cLo n nC (t + nC) _ _ _ (by
        rintro ⟨hx, -, -, -⟩
        omega)]
      have harg : t + (p - p) * nC + (q - cLo) = t + (q - cLo) := by
        have hz : p - p = 0 := by omega
        rw [hz, Nat.zero_mul, Nat.add_zero]
      rw [seedRow_cellAt_in rnd p cLo nC t g q hq1 hq2, harg]
    · have harg : (t + nC) + (p - (rLo + 1)) * nC + (q - cLo) =
          t + (p - rLo) * nC + (q - cLo) := by
        have hd : p - rLo = (p - (rLo + 1)) + 1 := by omega
        rw [hd, Nat.add_mul, Nat.one_mul]
        ring
      rw [ih (rLo + 1) nC (t + nC) _ p q (by omega) (by omega) hq1 hq2, harg]

end BriansBrain

namespace BriansBrain

/-- C3 (amended): the seeder keeps the configured dimensions; every cell
inside the centred `s × s` square (`s = floor(min(rows, columns) × 0.4)`)
receives `ALIVE` or `OFF` according to the successive 50/50 draws of the
random source, consumed in row-major order; every cell outside the square
keeps the unspecified contents the buffer had at allocation — it is `OFF`
only when the allocated buffer was all-`OFF`. -/
theorem seedGrid_spec (rows cols : Nat) (mem : Int → Int → Vec3b) (rnd : Nat → Bool) :
    (seedGrid rows cols mem rnd).rows = rows ∧
    (seedGrid rows cols mem rnd).cols = cols ∧
    (∀ p q : Nat,
      (rows - seedSize rows cols) / 2 ≤ p → p < (rows + seedSize rows cols) / 2 →
      (cols - seedSize rows cols) / 2 ≤ q → q < (cols + seedSize rows cols) / 2 →
      (seedGrid rows cols mem rnd).cellAt (p : Int) (q : Int) =
        if rnd ((p - (rows - seedSize rows cols) / 2) *
            ((cols + seedSize rows cols) / 2 - (cols - seedSize rows cols) / 2) +
            (q - (cols - seedSize rows cols) / 2)) then ON else OFF) ∧
    (∀ a b : Int,
      ¬((((rows - seedSize rows cols) / 2 : Nat) : Int) ≤ a ∧
        a < (((rows + seedSize rows cols) / 2 : Nat) : Int) ∧
        (((cols - seedSize rows cols) / 2 : Nat) : Int) ≤ b ∧
        b < (((cols + seedSize rows cols) / 2 : Nat) : Int)) →
      (seedGrid rows cols mem rnd).cellAt a b = mem a b) ∧
    ((∀ a b : Int, mem a b = OFF) →
      ∀ a b : Int,
        ¬((((rows - seedSize rows cols) / 2 : Nat) : Int) ≤ a ∧
          a < (((rows + seedSize rows cols) / 2 : Nat) : Int) ∧
          (((cols - seedSize rows cols) / 2 : Nat) : Int) ≤ b ∧
          b < (((cols + seedSize rows cols) / 2 : Nat) : Int)) →
        (seedGrid rows cols mem rnd).cellAt a b = OFF) := by
  have hout : ∀ a b : Int,
      ¬((((rows - seedSize rows cols) / 2 : Nat) : Int) ≤ a ∧
        a < (((rows + seedSize rows cols) / 2 : Nat) : Int) ∧
        (((cols - seedSize rows cols) / 2 : Nat) : Int) ≤ b ∧
        b < (((cols + seedSize rows cols) / 2 : Nat) : Int)) →
      (seedGrid rows cols mem rnd).cellAt a b = mem a b := by
    intro a b hab
    rw [seedGrid]
    apply seedBlock_cellAt_outside
    rintro ⟨hx1, hx2, hx3, hx4⟩
    exact hab ⟨by omega, by omega, by omega, by omega⟩
  refine ⟨applyWrites_rows _ _, applyWrites_cols _ _, ?_, hout, ?_⟩
  · intro p q hp1 hp2 hq1 hq2
    rw [seedGrid]
    rw [seedBlock_cellAt_in rnd ((rows - seedSize rows cols) / 2)
      ((cols - seedSize rows cols) / 2) _ _ 0 _ p q hp1 (by omega) hq1 (by omega)]
    have harg : 0 + (p - (rows - seedSize rows cols) / 2) *
        ((cols + seedSize rows cols) / 2 - (cols - seedSize rows cols) / 2) +
        (q - (cols - seedSize rows cols) / 2) =
        (p - (rows - seedSize rows cols) / 2) *
        ((cols + seedSize rows cols) / 2 - (cols - seedSize rows cols) / 2) +
        (q - (cols - seedSize rows cols) / 2) := by omega
    rw [harg]
  · intro hmem a b hab
    rw [hout a b hab, hmem a b]

/-- C3 (counterexample to the claim as stated): seeding a 5 × 5 buffer
whose allocated contents are all `ON` leaves the out-of-square cell
`(0, 0)` holding `ON`, not `OFF` — the seeding loop never clears cells
outside the centred square, and the buffer allocation does not zero them. -/
theorem seedGrid_outside_counterexample :
    (seedGrid 5 5 (fun _ _ => ON) (fun _ => false)).cellAt 0 0 = ON ∧
    ON ≠ OFF ∧
    (0 : Nat) < (5 - seedSize 5 5) / 2 := by
  refine ⟨by decide, by decide, by decide⟩

end BriansBrain

namespace BriansBrain

/-- Witness for C3 on a concrete 5 × 5 all-`OFF` buffer: the centred
square starts at row 1, column 1; cell `(1, 1)` receives the first draw
and cell `(0, 0)`, outside the square, keeps the buffer's contents. -/
theorem seedGrid_spec_witness :
    (seedGrid 5 5 (fun _ _ => OFF) (fun _ => true)).cellAt ((1 : Nat) : Int) ((1 : Nat) : Int) =
      ON ∧
    (seedGrid 5 5 (fun _ _ => OFF) (fun _ => true)).cellAt 0 0 = OFF := by
  constructor
  · have h := (seedGrid_spec 5 5 (fun _ _ => OFF) (fun _ => true)).2.2.1 1 1
      (by decide) (by decide) (by decide) (by decide)
    rw [h]
    decide
  · have h := (seedGrid_spec 5 5 (fun _ _ => OFF) (fun _ => true)).2.2.2.1 0 0 (by decide)
    rw [h]

end BriansBrain
